import Mathlib

/-!  Verification of `fix_analytics_namespace.py`.

The script rebrands the `analytics-python` package: it fetches the upstream
remote, guards that work happens on the `segmentio-release` branch, compares
tags, merges the newest tag, regenerates a `segmentio` package tree from the
`analytics` tree rewriting import statements, rewrites `setup.py`, and commits;
a try/except around the rebuild-through-commit phase rolls back to the starting
commit with `git reset --hard` and re-raises.

Strings are modelled as `List Char`; the file tree as an inductive of files and
directories; the external collaborators (git, the filesystem) as an `Env`
oracle that fixes each external command's success and output, with the state
effects of the successful commands made explicit on a `RepoState`.
-/

namespace FixAnalyticsNamespace

/-! ## Python string primitives -/

/-- Python's whitespace set, as used by `str.rstrip()`. -/
def pyIsSpace (c : Char) : Bool :=
  c == ' ' || c == '\n' || c == '\t' || c == '\r' || c == '\x0b' || c == '\x0c'

/-- Python `s.rstrip()`: remove trailing whitespace. -/
def rstrip (s : List Char) : List Char :=
  (s.reverse.dropWhile pyIsSpace).reverse

/-- Scanner for Python `str.replace`: a positive skip counter consumes the
remainder of a pattern already matched and emitted. -/
def replaceAux (old new : List Char) : List Char → Nat → List Char
  | [], _ => []
  | _ :: cs, skip + 1 => replaceAux old new cs skip
  | c :: cs, 0 =>
    if old.isPrefixOf (c :: cs) then new ++ replaceAux old new cs (old.length - 1)
    else c :: replaceAux old new cs 0

/-- Python `s.replace(old, new)`: replace non-overlapping occurrences of `old`
left to right.  Faithful for nonempty `old` (every pattern the script uses is a
nonempty literal). -/
def strReplace (s old new : List Char) : List Char :=
  replaceAux old new s 0

theorem replaceAux_eq_drop (old new : List Char) :
    ∀ (s : List Char) (k : Nat), replaceAux old new s k = replaceAux old new (s.drop k) 0 := by
  intro s
  induction s with
  | nil => intro k; simp [replaceAux]
  | cons c cs ih =>
    intro k
    cases k with
    | zero => simp
    | succ k => simpa [replaceAux] using ih k

theorem strReplace_nil (old new : List Char) : strReplace [] old new = [] := rfl

theorem strReplace_pos {old : List Char} (new : List Char) {c : Char} {cs : List Char}
    (hne : old ≠ []) (h : old.isPrefixOf (c :: cs) = true) :
    strReplace (c :: cs) old new = new ++ strReplace ((c :: cs).drop old.length) old new := by
  obtain ⟨a, as, rfl⟩ : ∃ a as, old = a :: as := by
    cases old with
    | nil => exact absurd rfl hne
    | cons a as => exact ⟨a, as, rfl⟩
  show replaceAux _ _ (c :: cs) 0 = _
  rw [replaceAux, if_pos h, replaceAux_eq_drop]
  simp [strReplace]

theorem strReplace_neg {old : List Char} (new : List Char) {c : Char} {cs : List Char}
    (h : old.isPrefixOf (c :: cs) = false) :
    strReplace (c :: cs) old new = c :: strReplace cs old new := by
  show replaceAux _ _ (c :: cs) 0 = _
  rw [replaceAux, if_neg (by simp [h])]
  rfl

/-- Decidable substring test (`pat in s` in Python). -/
def containsPat (pat : List Char) : List Char → Bool
  | [] => pat.isEmpty
  | c :: cs => pat.isPrefixOf (c :: cs) || containsPat pat cs

/-- When the pattern occurs nowhere, `str.replace` is the identity: the silent
no-op behaviour. -/
theorem strReplace_of_not_contains {pat : List Char} (new : List Char) {s : List Char}
    (h : containsPat pat s = false) : strReplace s pat new = s := by
  induction s with
  | nil => rfl
  | cons c cs ih =>
    rw [containsPat, Bool.or_eq_false_iff] at h
    rw [strReplace_neg new h.1, ih h.2]

/-! ## The namespace rewrite (lines 112-119 of the script) -/

def importAnalytics : List Char := "import analytics".toList

def importSegmentio : List Char := "import segmentio".toList

def fromAnalytics : List Char := "from analytics.".toList

def fromSegmentio : List Char := "from segmentio.".toList

/-- Lines 115-116: `c.replace('import analytics', 'import segmentio')` then
`c.replace('from analytics.', 'from segmentio.')`. -/
def rewritePyContent (c : List Char) : List Char :=
  strReplace (strReplace c importAnalytics importSegmentio) fromAnalytics fromSegmentio

/-- Scanner for `specNamespaceRewrite` (skip counter as in `replaceAux`). -/
def specRewriteAux : List Char → Nat → List Char
  | [], _ => []
  | _ :: cs, skip + 1 => specRewriteAux cs skip
  | c :: cs, 0 =>
    if importAnalytics.isPrefixOf (c :: cs) then
      importSegmentio ++ specRewriteAux cs (importAnalytics.length - 1)
    else if fromAnalytics.isPrefixOf (c :: cs) then
      fromSegmentio ++ specRewriteAux cs (fromAnalytics.length - 1)
    else c :: specRewriteAux cs 0

/-- Written to the spec's words, for the refinement claim about file contents:
in one pass, every occurrence of the bare-import pattern is replaced by the new
bare-import text, every occurrence of the from-import pattern by the new
from-import text, and every character not inside such an occurrence is copied
unchanged. -/
def specNamespaceRewrite (c : List Char) : List Char :=
  specRewriteAux c 0

theorem specRewriteAux_eq_drop :
    ∀ (s : List Char) (k : Nat), specRewriteAux s k = specRewriteAux (s.drop k) 0 := by
  intro s
  induction s with
  | nil => intro k; simp [specRewriteAux]
  | cons c cs ih =>
    intro k
    cases k with
    | zero => simp
    | succ k => simpa [specRewriteAux] using ih k

theorem specRewrite_nil : specNamespaceRewrite [] = [] := rfl

theorem specRewrite_imp {c : Char} {cs : List Char}
    (h : importAnalytics.isPrefixOf (c :: cs) = true) :
    specNamespaceRewrite (c :: cs) =
      importSegmentio ++ specNamespaceRewrite ((c :: cs).drop importAnalytics.length) := by
  show specRewriteAux (c :: cs) 0 = _
  rw [specRewriteAux, if_pos h, specRewriteAux_eq_drop]
  have h16 : importAnalytics.length = 16 := by decide
  simp [specNamespaceRewrite, h16]

theorem specRewrite_from {c : Char} {cs : List Char}
    (h1 : importAnalytics.isPrefixOf (c :: cs) = false)
    (h2 : fromAnalytics.isPrefixOf (c :: cs) = true) :
    specNamespaceRewrite (c :: cs) =
      fromSegmentio ++ specNamespaceRewrite ((c :: cs).drop fromAnalytics.length) := by
  show specRewriteAux (c :: cs) 0 = _
  rw [specRewriteAux, if_neg (by simp [h1]), if_pos h2, specRewriteAux_eq_drop]
  have h15 : fromAnalytics.length = 15 := by decide
  simp [specNamespaceRewrite, h15]

theorem specRewrite_other {c : Char} {cs : List Char}
    (h1 : importAnalytics.isPrefixOf (c :: cs) = false)
    (h2 : fromAnalytics.isPrefixOf (c :: cs) = false) :
    specNamespaceRewrite (c :: cs) = c :: specNamespaceRewrite cs := by
  show specRewriteAux (c :: cs) 0 = _
  rw [specRewriteAux, if_neg (by simp [h1]), if_neg (by simp [h2])]
  rfl

/-! ## The two sequential replaces equal the one-pass spec rewrite -/

theorem isPrefixOf_true_iff {l1 l2 : List Char} : l1.isPrefixOf l2 = true ↔ l1 <+: l2 :=
  List.isPrefixOf_iff_prefix

theorem pre_of_append_of_le {l a b : List Char} (h : l <+: a ++ b)
    (hle : l.length ≤ a.length) : l <+: a := by
  obtain ⟨t, ht⟩ := h
  have hl : l = a.take l.length := by
    have h2 := congrArg (List.take l.length) ht
    rwa [List.take_left, List.take_append_of_le_length hle] at h2
  exact hl ▸ List.take_prefix _ a

theorem take_pre_of_append {l a b : List Char} (h : l <+: a ++ b) :
    l.take a.length <+: a := by
  by_cases hle : l.length ≤ a.length
  · rw [List.take_of_length_le hle]
    exact pre_of_append_of_le h hle
  · obtain ⟨t, ht⟩ := h
    have hl : l.take a.length = a := by
      have h2 := congrArg (List.take a.length) ht
      rwa [List.take_append_of_le_length (Nat.le_of_not_le hle), List.take_left] at h2
    rw [hl]

/-- No occurrence of `old` can start inside `pre`, whatever follows `pre`: at
every start position the part of `old` that falls inside `pre` already
mismatches. -/
def noOccStartIn (old pre : List Char) : Prop :=
  ∀ k, k < pre.length → ¬ (old.take (pre.length - k)) <+: pre.drop k

instance (old pre : List Char) : Decidable (noOccStartIn old pre) := by
  unfold noOccStartIn; infer_instance

/-- `str.replace` fires immediately on a string that starts with the pattern. -/
theorem strReplace_pre_self {old : List Char} (new Z : List Char) (hne : old ≠ []) :
    strReplace (old ++ Z) old new = new ++ strReplace Z old new := by
  obtain ⟨a, as, rfl⟩ : ∃ a as, old = a :: as := by
    cases old with
    | nil => exact absurd rfl hne
    | cons a as => exact ⟨a, as, rfl⟩
  rw [List.cons_append,
    strReplace_pos new (by simp)
      (isPrefixOf_true_iff.mpr (by rw [← List.cons_append]; exact List.prefix_append _ _))]
  rw [List.length_cons, List.drop_succ_cons, List.drop_left]

theorem noOccStartIn_cons {old : List Char} {c : Char} {pre : List Char}
    (h : noOccStartIn old (c :: pre)) : noOccStartIn old pre := by
  intro k hk
  have h2 := h (k + 1) (by simpa using Nat.succ_lt_succ hk)
  simpa [Nat.succ_sub_succ] using h2

theorem strReplace_append_of_noOcc {old : List Char} (new : List Char) {pre : List Char}
    (h : noOccStartIn old pre) (X : List Char) :
    strReplace (pre ++ X) old new = pre ++ strReplace X old new := by
  induction pre with
  | nil => simp
  | cons c pre' ih =>
    cases hob : old.isPrefixOf (c :: (pre' ++ X)) with
    | true =>
      exfalso
      have hpre : old <+: (c :: pre') ++ X := isPrefixOf_true_iff.mp (by simpa using hob)
      have h2 := take_pre_of_append hpre
      exact h 0 (by simp) (by simpa using h2)
    | false =>
      have h3 := @strReplace_neg old new c (pre' ++ X) hob
      rw [List.cons_append, h3, ih (noOccStartIn_cons h), List.cons_append]

theorem noOcc_from_importSeg : noOccStartIn fromAnalytics importSegmentio := by decide

theorem noOcc_import_from : noOccStartIn importAnalytics fromAnalytics := by decide

theorem from_drop_not_pre_importSeg :
    ∀ k, k < fromAnalytics.length → ¬ (fromAnalytics.drop k) <+: importSegmentio := by decide

/-- Replacing `import analytics` never creates a fresh occurrence of a tail of
`from analytics.` at the front of the output. -/
theorem from_not_created (s : List Char) :
    ∀ k, k ≤ fromAnalytics.length →
      fromAnalytics.drop k <+: strReplace s importAnalytics importSegmentio →
      fromAnalytics.drop k <+: s := by
  induction s with
  | nil => intro k _ h; exact h
  | cons c cs ih =>
    intro k hk h
    by_cases hd : fromAnalytics.drop k = []
    · rw [hd]; exact List.nil_prefix
    · have hk15 : k < fromAnalytics.length := by
        rcases Nat.lt_or_ge k fromAnalytics.length with h1 | h1
        · exact h1
        · exact absurd (List.drop_eq_nil_of_le h1) hd
      cases hp : importAnalytics.isPrefixOf (c :: cs) with
      | true =>
        exfalso
        rw [strReplace_pos _ (by decide) hp] at h
        have hlen : (fromAnalytics.drop k).length ≤ importSegmentio.length := by
          have e1 : fromAnalytics.length = 15 := by decide
          have e2 : importSegmentio.length = 16 := by decide
          simp only [List.length_drop, e1, e2]; omega
        exact from_drop_not_pre_importSeg k hk15 (pre_of_append_of_le h hlen)
      | false =>
        rw [strReplace_neg _ hp] at h
        rw [List.drop_eq_getElem_cons hk15] at h ⊢
        rw [List.cons_prefix_cons] at h ⊢
        exact ⟨h.1, ih (k + 1) hk15 h.2⟩

/-- The composed pair of `str.replace` calls of the script computes exactly the
one-pass simultaneous rewrite the spec describes. -/
theorem rewritePyContent_eq_spec (s : List Char) :
    rewritePyContent s = specNamespaceRewrite s := by
  match s with
  | [] => rfl
  | c :: cs =>
    cases h1 : importAnalytics.isPrefixOf (c :: cs) with
    | true =>
      unfold rewritePyContent
      rw [specRewrite_imp h1, strReplace_pos _ (by decide) h1,
        strReplace_append_of_noOcc _ noOcc_from_importSeg]
      have hrec := rewritePyContent_eq_spec ((c :: cs).drop importAnalytics.length)
      unfold rewritePyContent at hrec
      rw [hrec]
    | false =>
      cases h2 : fromAnalytics.isPrefixOf (c :: cs) with
      | true =>
        obtain ⟨t, ht⟩ := isPrefixOf_true_iff.mp h2
        unfold rewritePyContent
        rw [specRewrite_from h1 h2, ← ht, List.drop_left,
          strReplace_append_of_noOcc _ noOcc_import_from,
          strReplace_pre_self _ _ (by decide)]
        have hrec := rewritePyContent_eq_spec t
        unfold rewritePyContent at hrec
        rw [hrec]
      | false =>
        have hguard :
            fromAnalytics.isPrefixOf (c :: strReplace cs importAnalytics importSegmentio)
              = false := by
          cases hg : fromAnalytics.isPrefixOf
              (c :: strReplace cs importAnalytics importSegmentio) with
          | false => rfl
          | true =>
            exfalso
            have hfp : fromAnalytics <+: strReplace (c :: cs) importAnalytics importSegmentio := by
              rw [strReplace_neg _ h1]
              exact isPrefixOf_true_iff.mp hg
            have h3 := from_not_created (c :: cs) 0 (by decide) (by simpa using hfp)
            rw [← isPrefixOf_true_iff] at h3
            simp [h2] at h3
        unfold rewritePyContent
        rw [specRewrite_other h1 h2, strReplace_neg _ h1, strReplace_neg _ hguard]
        have hrec := rewritePyContent_eq_spec cs
        unfold rewritePyContent at hrec
        rw [hrec]
termination_by s.length
decreasing_by
  · have h6 := List.length_cons c cs
    omega
  · have h4 := congrArg List.length ht
    have e1 : fromAnalytics.length = 15 := by decide
    rw [List.length_append, List.length_cons] at h4
    have h6 := List.length_cons c cs
    omega
  · have h5 := List.length_drop importAnalytics.length (c :: cs)
    have e1 : importAnalytics.length = 16 := by decide
    have h6 := List.length_cons c cs
    omega

/-! ## The file tree and `create_segmentio_branded_package` (lines 95-142) -/

/-- A filesystem entry: a file with contents, or a directory with a listing of
named children (in the order the directory listing returns them). -/
inductive FsEntry : Type where
  | file (content : List Char)
  | dir (children : List (List Char × FsEntry))

/-- A directory listing. -/
abbrev Listing := List (List Char × FsEntry)

/-- Look a name up in a listing (first match). -/
def findEntry : Listing → List Char → Option FsEntry
  | [], _ => none
  | (m, e) :: rest, n => if m = n then some e else findEntry rest n

/-- Follow a path of names down from an entry. -/
def lookupIn : FsEntry → List (List Char) → Option FsEntry
  | e, [] => some e
  | .dir ch, n :: rest =>
    match findEntry ch n with
    | some e => lookupIn e rest
    | none => none
  | .file _, _ :: _ => none

/-- Whether `glob` with a `*` pattern hides the name: names beginning with a
dot are not matched. -/
def isHidden (n : List Char) : Bool :=
  match n with
  | '.' :: _ => true
  | _ => false

mutual

/-- One entry of the traversal of lines 102-142: a directory is recursed into
(line 108-110), a file whose name ends in `.py` is rewritten (lines 112-119),
any other file is copied byte for byte (line 142). -/
def rewriteEntry (name : List Char) : FsEntry → FsEntry
  | .file c => if (".py".toList).isSuffixOf name then .file (rewritePyContent c) else .file c
  | .dir ch => .dir (rewriteChildren ch)

/-- The children produced for one directory: `glob(os.path.join(..., '*'))` at
lines 99-101 lists the non-hidden entries; each is processed in order. -/
def rewriteChildren : Listing → Listing
  | [] => []
  | (n, e) :: rest =>
    if isHidden n then rewriteChildren rest
    else (n, rewriteEntry n e) :: rewriteChildren rest

end

/-- Lines 95-142: the generated `segmentio` tree as a function of the
`analytics` source tree's children. -/
def create_segmentio_branded_package (ch : Listing) : Listing :=
  rewriteChildren ch

/-! ## `refactor_setup_with_segmentio_branding` (lines 145-164) -/

def setupNamePat : List Char := "name='analytics-python'".toList

def setupNameRepl : List Char := "name='segmentio'".toList

def setupSuitePat : List Char := "test_suite='analytics.test.all'".toList

def setupSuiteRepl : List Char := "test_suite='segmentio.test.all'".toList

def setupPkgsPat : List Char := "packages=['analytics', 'analytics.test']".toList

def setupPkgsRepl : List Char := "packages=['segmentio', 'segmentio.test']".toList

/-- Lines 145-164: the three fixed literal replacements applied to the
`setup.py` contents. -/
def refactor_setup_with_segmentio_branding (c : List Char) : List Char :=
  strReplace (strReplace (strReplace c setupNamePat setupNameRepl)
    setupSuitePat setupSuiteRepl) setupPkgsPat setupPkgsRepl

/-! ## Tree lemmas -/

theorem findEntry_rewriteChildren_hidden (ch : Listing) (n : List Char)
    (h : isHidden n = true) : findEntry (rewriteChildren ch) n = none := by
  induction ch with
  | nil => rfl
  | cons p rest ih =>
    obtain ⟨m, e⟩ := p
    by_cases hm : isHidden m
    · rw [rewriteChildren, if_pos hm]
      exact ih
    · rw [rewriteChildren, if_neg hm]
      have hmn : m ≠ n := fun hEq => hm (hEq ▸ h)
      rw [findEntry, if_neg hmn]
      exact ih

theorem findEntry_rewriteChildren_visible (ch : Listing) (n : List Char)
    (h : isHidden n = false) :
    findEntry (rewriteChildren ch) n = (findEntry ch n).map (rewriteEntry n) := by
  induction ch with
  | nil => rfl
  | cons p rest ih =>
    obtain ⟨m, e⟩ := p
    by_cases hm : isHidden m
    · rw [rewriteChildren, if_pos hm]
      have hmn : m ≠ n := fun hEq => by rw [hEq, h] at hm; exact Bool.false_ne_true hm
      rw [findEntry, if_neg hmn]
      exact ih
    · rw [rewriteChildren, if_neg hm]
      by_cases hmn : m = n
      · subst hmn
        rw [findEntry, if_pos rfl, findEntry, if_pos rfl]
        rfl
      · rw [findEntry, if_neg hmn, findEntry, if_neg hmn]
        exact ih

theorem lookupIn_file_cons (c : List Char) (a : List Char) (l : List (List Char)) :
    lookupIn (.file c) (a :: l) = none := rfl

/-- Through the rewriter, a non-hidden file path keeps its place and its
contents are rewritten exactly when the file name ends in `.py`. -/
theorem lookupIn_rewriteChildren (path : List (List Char)) :
    ∀ (ch : Listing) (n : List Char) (c : List Char),
      (∀ m ∈ path, isHidden m = false) → isHidden n = false →
      lookupIn (.dir ch) (path ++ [n]) = some (.file c) →
      lookupIn (.dir (rewriteChildren ch)) (path ++ [n]) =
        some (.file (if (".py".toList).isSuffixOf n then rewritePyContent c else c)) := by
  induction path with
  | nil =>
    intro ch n c _ hn hsrc
    rw [List.nil_append] at hsrc ⊢
    simp only [lookupIn] at hsrc ⊢
    cases hf : findEntry ch n with
    | none => rw [hf] at hsrc; exact Option.noConfusion hsrc
    | some e =>
      simp only [hf] at hsrc
      obtain rfl : e = .file c := Option.some.inj hsrc
      simp only [findEntry_rewriteChildren_visible ch n hn, hf, Option.map_some']
      simp only [rewriteEntry]
      by_cases hs : (".py".toList).isSuffixOf n = true
      · rw [if_pos hs, if_pos hs]
      · rw [if_neg hs, if_neg hs]
  | cons q path ih =>
    intro ch n c hpath hn hsrc
    have hq : isHidden q = false := hpath q (by simp)
    have hpath' : ∀ m ∈ path, isHidden m = false := fun m hm => hpath m (by simp [hm])
    rw [List.cons_append] at hsrc ⊢
    simp only [lookupIn] at hsrc ⊢
    cases hf : findEntry ch q with
    | none => exact absurd (hf ▸ hsrc) (by simp)
    | some e =>
      simp only [hf] at hsrc
      cases e with
      | file c' =>
        obtain ⟨x, xs, hx⟩ : ∃ x xs, path ++ [n] = x :: xs := by
          cases path with
          | nil => exact ⟨n, [], rfl⟩
          | cons p ps => exact ⟨p, ps ++ [n], rfl⟩
        rw [hx, lookupIn_file_cons] at hsrc
        exact Option.noConfusion hsrc
      | dir ch' =>
        simp only [findEntry_rewriteChildren_visible ch q hq, hf, Option.map_some']
        simp only [rewriteEntry]
        exact ih ch' n c hpath' hn hsrc

/-! ## The orchestrator (`__main__`, lines 175-229)

The external collaborators are modelled by an `Env` oracle: for every external
command it fixes whether the command succeeds and what it prints; the state
effect of each successful command is explicit on `RepoState`.  `check_output`
values carry their trailing newline, as the real command output does; the
script calls `.rstrip()` on some of them and (notably) not on others.  The
read-only queries (`git remote -v`, `git rev-parse HEAD`, `git describe`) are
assumed to answer; no claim concerns their failure. -/

/-- The failure taxonomy: `ValueError` from the remote resolver,
`StandardError` from the branch guard, `CalledProcessError` from
`check_call`/`check_output`, `OSError`/`IOError` from filesystem steps. -/
inductive RunError : Type where
  | remoteNotFound
  | missingBranch
  | cmdFailed (cmd : List Char)
  | ioError (op : List Char)
deriving DecidableEq

/-- How the process ends: normally, via `sys.exit`, or with an uncaught
exception (a non-zero process exit). -/
inductive Outcome : Type where
  | success
  | exited (code : Nat)
  | error (e : RunError)
deriving DecidableEq

/-- The mutating git commands the run invokes (recorded when invoked, whether
or not they succeed). -/
inductive Act : Type where
  | fetchMaster
  | fetchTags
  | verifyBranch
  | checkout
  | merge (tag : List Char)
  | commitCmd (msg : List Char)
  | gitAdd (path : List Char)
  | reset (commit : Nat)
deriving DecidableEq

def Act.isMergeCmd : Act → Bool
  | .merge _ => true
  | _ => false

def Act.isCommitCmd : Act → Bool
  | .commitCmd _ => true
  | _ => false

def Act.isCheckout : Act → Bool
  | .checkout => true
  | _ => false

def Act.isReset : Act → Bool
  | .reset _ => true
  | _ => false

/-- The repository state the run mutates: the checked-out commit, the current
branch, the working tree (assumed clean at the start of the run, so the
starting commit's tree is the starting working tree), and whether the
remote-tracking branch and the tags have been fetched. -/
structure RepoState : Type where
  head : Nat
  branch : List Char
  root : Listing
  fetchedMaster : Bool
  fetchedTags : Bool

/-- The oracle for the external commands: whether each succeeds, and the
outputs and resulting trees git reports.  `describeMasterOut` and
`describeTagsOut` are raw `check_output` values (trailing newline included). -/
structure Env : Type where
  remoteFound : Bool
  fetchMasterOk : Bool
  fetchTagsOk : Bool
  branchExists : Bool
  checkoutOk : Bool
  checkoutHead : Nat
  checkoutTree : Listing
  describeMasterOut : List Char
  describeTagsOut : List Char
  skipReleaseMerge : Bool
  mergeOk : Bool
  mergeCommitOk : Bool
  mergeTree : Listing
  mergeCommitHead : Nat
  rmtreeOk : Bool
  mkdirOk : Bool
  rewriteOk : Bool
  setupOk : Bool
  addOk : Bool
  commitOk : Bool
  finalCommitHead : Nat

def segName : List Char := "segmentio".toList

def anaName : List Char := "analytics".toList

def setupName : List Char := "setup.py".toList

def fixedBranch : List Char := "segmentio-release".toList

def fetchMasterCmd : List Char := "git fetch master".toList

def fetchTagsCmd : List Char := "git fetch --tags".toList

def checkoutCmd : List Char := "git checkout".toList

def mergeCmd : List Char := "git merge".toList

def commitCmd : List Char := "git commit".toList

def addCmd : List Char := "git add".toList

def rmtreeOp : List Char := "rmtree segmentio".toList

def mkdirOp : List Char := "mkdir segmentio".toList

def rewriteOp : List Char := "write segmentio tree".toList

def setupOp : List Char := "rewrite setup.py".toList

def mergeMsg (tag : List Char) : List Char := "merged Release ".toList ++ tag

def createdMsg : List Char := "created segmentio release".toList

/-- Remove every entry of the given name from a listing (`shutil.rmtree`). -/
def eraseEntry (root : Listing) (n : List Char) : Listing :=
  root.filter (fun p => decide (p.1 ≠ n))

/-- Overwrite the entry of the given name (writing to an existing path). -/
def setEntry (root : Listing) (n : List Char) (e : FsEntry) : Listing :=
  root.map (fun p => if p.1 = n then (n, e) else p)

/-- `glob('analytics/*')`'s source listing: the children of the `analytics`
directory, or nothing when no such directory exists (`glob` matches nothing
and the loop body never runs; no error). -/
def anaChildren (root : Listing) : Listing :=
  match findEntry root anaName with
  | some (.dir ch) => ch
  | _ => []

/-- Lines 53-67, `checkout_segmentio_branded_branch`.  The current branch is
read with `check_output` and compared against `'segmentio-release'` without
stripping the trailing newline, so the comparison never succeeds and the
existence check plus checkout always run. -/
def checkout_segmentio_branded_branch (env : Env) (st : RepoState) :
    Except RunError RepoState × List Act :=
  let current_branch := st.branch ++ ['\n']
  if fixedBranch = current_branch then (.ok st, [])
  else if env.branchExists = false then (.error .missingBranch, [.verifyBranch])
  else if env.checkoutOk = false then
    (.error (.cmdFailed checkoutCmd), [.verifyBranch, .checkout])
  else
    (.ok { st with branch := fixedBranch, head := env.checkoutHead,
                   root := env.checkoutTree },
     [.verifyBranch, .checkout])

/-- Lines 70-82, `get_most_recent_tag`: `(current_tag, most_recent_tag)`, both
`.rstrip()`-ed `check_output` values. -/
def get_most_recent_tag (env : Env) : List Char × List Char :=
  (rstrip env.describeTagsOut, rstrip env.describeMasterOut)

/-- Lines 85-92, `merge_tagged_version`: `git merge --no-commit -X theirs`
then `git commit -am`. -/
def merge_tagged_version (env : Env) (tag : List Char) (st : RepoState) :
    Except RunError RepoState × List Act :=
  if env.mergeOk = false then (.error (.cmdFailed mergeCmd), [.merge tag])
  else if env.mergeCommitOk = false then
    (.error (.cmdFailed commitCmd), [.merge tag, .commitCmd (mergeMsg tag)])
  else
    (.ok { st with root := env.mergeTree, head := env.mergeCommitHead },
     [.merge tag, .commitCmd (mergeMsg tag)])

/-- Lines 204-207: remove the `segmentio` tree when it is a directory
(`os.path.isdir` then `shutil.rmtree`). -/
def clobberSegmentio (env : Env) (root : Listing) : Except RunError Listing :=
  match findEntry root segName with
  | some (.dir _) =>
    if env.rmtreeOk then .ok (eraseEntry root segName) else .error (.ioError rmtreeOp)
  | _ => .ok root

/-- Line 207: `os.mkdir('segmentio')`, which raises when an entry of that name
still exists (`segmentio` present as a plain file survives the clobber). -/
def mkdirSegmentio (env : Env) (root : Listing) : Except RunError Listing :=
  match findEntry root segName with
  | some _ => .error (.ioError mkdirOp)
  | none =>
    if env.mkdirOk then .ok (root ++ [(segName, .dir [])]) else .error (.ioError mkdirOp)

/-- Line 210: fill the fresh `segmentio` directory with the rewritten copy of
the `analytics` tree. -/
def generatePackage (env : Env) (root : Listing) : Except RunError Listing :=
  if env.rewriteOk then
    .ok (setEntry root segName (.dir (create_segmentio_branded_package (anaChildren root))))
  else .error (.ioError rewriteOp)

/-- Line 211 with lines 145-164: read `setup.py` (raising when it is missing
or not a file), apply the three replacements, write it back. -/
def refactorSetupStep (env : Env) (root : Listing) : Except RunError Listing :=
  match findEntry root setupName with
  | some (.file c) =>
    if env.setupOk then
      .ok (setEntry root setupName (.file (refactor_setup_with_segmentio_branding c)))
    else .error (.ioError setupOp)
  | _ => .error (.ioError setupOp)

/-- Lines 204-211: the filesystem part of the try block. -/
def rebuildTree (env : Env) (root : Listing) : Except RunError Listing :=
  match clobberSegmentio env root with
  | .error e => .error e
  | .ok r1 =>
    match mkdirSegmentio env r1 with
    | .error e => .error e
    | .ok r2 =>
      match generatePackage env r2 with
      | .error e => .error e
      | .ok r3 => refactorSetupStep env r3

/-- Lines 204-216: the whole try block, filesystem rebuild then `git add` and
`git commit`. -/
def rebuildPhase (env : Env) (st : RepoState) : Except RunError RepoState × List Act :=
  match rebuildTree env st.root with
  | .error e => (.error e, [])
  | .ok root' =>
    if env.addOk = false then (.error (.cmdFailed addCmd), [.gitAdd segName])
    else if env.commitOk = false then
      (.error (.cmdFailed commitCmd), [.gitAdd segName, .commitCmd createdMsg])
    else
      (.ok { st with root := root', head := env.finalCommitHead },
       [.gitAdd segName, .commitCmd createdMsg])

/-- Lines 203-223: run the try block; on any exception, log, `git reset --hard`
back to the starting commit (restoring its tree) and re-raise the caught
exception. -/
def runRebuild (env : Env) (starting : Nat) (startRoot : Listing) (st : RepoState)
    (pre : List Act) : Outcome × RepoState × List Act :=
  match rebuildPhase env st with
  | (.ok st', acts) => (.success, st', pre ++ acts)
  | (.error e, acts) =>
    (.error e, { st with head := starting, root := startRoot },
     pre ++ acts ++ [.reset starting])

/-- Lines 175-229: the whole `__main__` block.  Returns the process outcome,
the final repository state and the mutating git commands invoked, in order. -/
def runMain (env : Env) (st0 : RepoState) : Outcome × RepoState × List Act :=
  let starting := st0.head
  if env.remoteFound = false then (.error .remoteNotFound, st0, [])
  else if env.fetchMasterOk = false then
    (.error (.cmdFailed fetchMasterCmd), st0, [.fetchMaster])
  else
    let st1 : RepoState := { st0 with fetchedMaster := true }
    if env.fetchTagsOk = false then
      (.error (.cmdFailed fetchTagsCmd), st1, [.fetchMaster, .fetchTags])
    else
      let st2 : RepoState := { st1 with fetchedTags := true }
      match checkout_segmentio_branded_branch env st2 with
      | (.error e, acts) => (.error e, st2, [.fetchMaster, .fetchTags] ++ acts)
      | (.ok st3, acts) =>
        let pre := [Act.fetchMaster, Act.fetchTags] ++ acts
        let tags := get_most_recent_tag env
        if env.skipReleaseMerge = false then
          if tags.1 = tags.2 then (.exited 0, st3, pre)
          else
            match merge_tagged_version env tags.2 st3 with
            | (.error e, acts2) => (.error e, st3, pre ++ acts2)
            | (.ok st4, acts2) => runRebuild env starting st0.root st4 (pre ++ acts2)
        else runRebuild env starting st0.root st3 pre

/-! ## Orchestrator lemmas -/

/-- `check_output` keeps the trailing newline, so the fixed branch name never
equals the raw output (source line 57's comparison is always true). -/
theorem fixedBranch_ne_newline (b : List Char) : fixedBranch ≠ b ++ ['\n'] := by
  intro h
  have h2 := congrArg List.getLast? h
  rw [List.getLast?_concat] at h2
  exact absurd h2 (by decide)

/-- The four mutating commands of every run that passes the branch guard. -/
def preActs : List Act := [.fetchMaster, .fetchTags, .verifyBranch, .checkout]

theorem runMain_skip_eq (env : Env) (st0 : RepoState)
    (h1 : env.remoteFound = true) (h2 : env.fetchMasterOk = true)
    (h3 : env.fetchTagsOk = true) (h4 : env.branchExists = true)
    (h5 : env.checkoutOk = true) (hskip : env.skipReleaseMerge = true) :
    runMain env st0 =
      runRebuild env st0.head st0.root
        ⟨env.checkoutHead, fixedBranch, env.checkoutTree, true, true⟩ preActs := by
  have hne := fixedBranch_ne_newline st0.branch
  simp [runMain, checkout_segmentio_branded_branch, h1, h2, h3, h4, h5, hskip, hne, preActs]

theorem runMain_merge_eq (env : Env) (st0 : RepoState)
    (h1 : env.remoteFound = true) (h2 : env.fetchMasterOk = true)
    (h3 : env.fetchTagsOk = true) (h4 : env.branchExists = true)
    (h5 : env.checkoutOk = true) (h6 : env.mergeOk = true)
    (h7 : env.mergeCommitOk = true) (hskip : env.skipReleaseMerge = false)
    (htag : ¬ rstrip env.describeTagsOut = rstrip env.describeMasterOut) :
    runMain env st0 =
      runRebuild env st0.head st0.root
        ⟨env.mergeCommitHead, fixedBranch, env.mergeTree, true, true⟩
        (preActs ++ [.merge (rstrip env.describeMasterOut),
          .commitCmd (mergeMsg (rstrip env.describeMasterOut))]) := by
  have hne := fixedBranch_ne_newline st0.branch
  simp [runMain, checkout_segmentio_branded_branch, get_most_recent_tag,
    merge_tagged_version, h1, h2, h3, h4, h5, h6, h7, hskip, htag, hne, preActs]

theorem runRebuild_err (env : Env) (starting : Nat) (startRoot : Listing)
    (st : RepoState) (pre : List Act) (e : RunError) (acts : List Act)
    (h : rebuildPhase env st = (.error e, acts)) :
    runRebuild env starting startRoot st pre =
      (.error e, { st with head := starting, root := startRoot },
        pre ++ acts ++ [.reset starting]) := by
  simp [runRebuild, h]

theorem runRebuild_ok (env : Env) (starting : Nat) (startRoot : Listing)
    (st st' : RepoState) (pre : List Act) (acts : List Act)
    (h : rebuildPhase env st = (.ok st', acts)) :
    runRebuild env starting startRoot st pre = (.success, st', pre ++ acts) := by
  simp [runRebuild, h]

theorem findEntry_erase_self (root : Listing) (n : List Char) :
    findEntry (eraseEntry root n) n = none := by
  induction root with
  | nil => rfl
  | cons p rest ih =>
    obtain ⟨m, e⟩ := p
    by_cases hm : m = n
    · simpa [eraseEntry, List.filter_cons, hm] using ih
    · simpa [eraseEntry, List.filter_cons, hm, findEntry] using ih

theorem findEntry_erase_other (root : Listing) {n m : List Char} (h : m ≠ n) :
    findEntry (eraseEntry root n) m = findEntry root m := by
  induction root with
  | nil => rfl
  | cons p rest ih =>
    obtain ⟨m', e⟩ := p
    by_cases hm' : m' = n
    · have hne : m' ≠ m := fun hc => h (hc ▸ hm')
      simp only [eraseEntry, List.filter_cons] at ih ⊢
      rw [decide_eq_false (by simp [hm']), if_neg (by simp)]
      rw [findEntry, if_neg hne]
      exact ih
    · by_cases hmm : m' = m
      · simp only [eraseEntry, List.filter_cons] at ih ⊢
        rw [decide_eq_true (by exact hm'), if_pos rfl]
        rw [findEntry, if_pos hmm, findEntry, if_pos hmm]
      · simp only [eraseEntry, List.filter_cons] at ih ⊢
        rw [decide_eq_true (by exact hm'), if_pos rfl]
        rw [findEntry, if_neg hmm, findEntry, if_neg hmm]
        exact ih

theorem findEntry_append_self (root : Listing) (n : List Char) (e : FsEntry)
    (h : findEntry root n = none) : findEntry (root ++ [(n, e)]) n = some e := by
  induction root with
  | nil => simp [findEntry]
  | cons p rest ih =>
    obtain ⟨m, e'⟩ := p
    by_cases hm : m = n
    · rw [findEntry, if_pos hm] at h
      exact Option.noConfusion h
    · rw [findEntry, if_neg hm] at h
      rw [List.cons_append, findEntry, if_neg hm]
      exact ih h

theorem findEntry_append_other (root : Listing) (n : List Char) (e : FsEntry)
    {m : List Char} (h : m ≠ n) : findEntry (root ++ [(n, e)]) m = findEntry root m := by
  induction root with
  | nil => simp [findEntry, show ¬ n = m from fun hc => h hc.symm]
  | cons p rest ih =>
    obtain ⟨m', e'⟩ := p
    rw [List.cons_append, findEntry, findEntry]
    by_cases hmm : m' = m
    · rw [if_pos hmm, if_pos hmm]
    · rw [if_neg hmm, if_neg hmm]
      exact ih

theorem findEntry_set_self (root : Listing) (n : List Char) (e e' : FsEntry)
    (h : findEntry root n = some e') : findEntry (setEntry root n e) n = some e := by
  induction root with
  | nil => exact Option.noConfusion h
  | cons p rest ih =>
    obtain ⟨m, e''⟩ := p
    by_cases hm : m = n
    · rw [setEntry, List.map_cons, if_pos hm, findEntry, if_pos rfl]
    · rw [findEntry, if_neg hm] at h
      rw [setEntry, List.map_cons, if_neg hm, findEntry, if_neg hm]
      exact ih h

theorem findEntry_set_other (root : Listing) (n : List Char) (e : FsEntry)
    {m : List Char} (h : m ≠ n) : findEntry (setEntry root n e) m = findEntry root m := by
  induction root with
  | nil => rfl
  | cons p rest ih =>
    obtain ⟨m', e'⟩ := p
    by_cases hm' : m' = n
    · have hne : n ≠ m := fun hc => h hc.symm
      rw [setEntry, List.map_cons, if_pos hm', findEntry, if_neg hne, findEntry,
        if_neg (fun hc : m' = m => h (hc ▸ hm'))]
      exact ih
    · rw [setEntry, List.map_cons, if_neg hm', findEntry, findEntry]
      by_cases hmm : m' = m
      · rw [if_pos hmm, if_pos hmm]
      · rw [if_neg hmm, if_neg hmm]
        exact ih

theorem anaName_ne_segName : anaName ≠ segName := by decide

theorem setupName_ne_segName : setupName ≠ segName := by decide

/-- A successful filesystem rebuild leaves `segmentio` holding exactly the
rewritten copy of the `analytics` children of the tree the rebuild started
from. -/
theorem rebuildTree_seg (env : Env) (root root' : Listing)
    (h : rebuildTree env root = .ok root') :
    findEntry root' segName =
      some (.dir (create_segmentio_branded_package (anaChildren root))) := by
  rw [rebuildTree] at h
  rcases hc : clobberSegmentio env root with e1 | r1
  · simp only [hc] at h
    exact Except.noConfusion h
  simp only [hc] at h
  have hana1 : anaChildren r1 = anaChildren root := by
    rw [clobberSegmentio] at hc
    rcases hseg : findEntry root segName with _ | e0
    · rw [hseg] at hc
      exact congrArg anaChildren (Except.ok.inj hc).symm
    · rw [hseg] at hc
      cases e0 with
      | file c =>
        exact congrArg anaChildren (Except.ok.inj hc).symm
      | dir ch =>
        rcases hrm : env.rmtreeOk with _ | _
        · rw [hrm] at hc; exact Except.noConfusion hc
        · rw [hrm] at hc
          rw [← Except.ok.inj hc]
          rw [anaChildren, anaChildren, findEntry_erase_other root anaName_ne_segName]
  rcases hm : mkdirSegmentio env r1 with e1 | r2
  · simp only [hm] at h
    exact Except.noConfusion h
  simp only [hm] at h
  have hr2 : r2 = r1 ++ [(segName, .dir [])] ∧ findEntry r1 segName = none := by
    rw [mkdirSegmentio] at hm
    rcases hf1 : findEntry r1 segName with _ | e0
    · rw [hf1] at hm
      rcases hmk : env.mkdirOk with _ | _
      · rw [hmk] at hm; exact Except.noConfusion hm
      · rw [hmk] at hm
        simp only [if_pos rfl] at hm
        exact ⟨(Except.ok.inj hm).symm, rfl⟩
    · rw [hf1] at hm; exact Except.noConfusion hm
  obtain ⟨hr2eq, hr1none⟩ := hr2
  have hana2 : anaChildren r2 = anaChildren root := by
    rw [hr2eq, anaChildren, findEntry_append_other r1 segName _ anaName_ne_segName,
      ← anaChildren, hana1]
  have hseg2 : findEntry r2 segName = some (.dir []) := by
    rw [hr2eq]
    exact findEntry_append_self r1 segName _ hr1none
  rcases hg : generatePackage env r2 with e1 | r3
  · simp only [hg] at h
    exact Except.noConfusion h
  simp only [hg] at h
  have hr3 : r3 = setEntry r2 segName
      (.dir (create_segmentio_branded_package (anaChildren r2))) := by
    rw [generatePackage] at hg
    rcases hrw : env.rewriteOk with _ | _
    · rw [hrw] at hg; exact Except.noConfusion hg
    · rw [hrw] at hg
      simp only [if_pos rfl] at hg
      exact (Except.ok.inj hg).symm
  have hseg3 : findEntry r3 segName =
      some (.dir (create_segmentio_branded_package (anaChildren root))) := by
    rw [hr3, hana2]
    exact findEntry_set_self r2 segName _ _ hseg2
  rw [refactorSetupStep] at h
  rcases hsu : findEntry r3 setupName with _ | e0
  · simp only [hsu] at h
    exact Except.noConfusion h
  simp only [hsu] at h
  cases e0 with
  | dir ch => exact Except.noConfusion h
  | file c =>
    rcases hso : env.setupOk with _ | _
    · simp [hso] at h
    · rw [hso] at h
      simp only [if_pos rfl] at h
      rw [← Except.ok.inj h, findEntry_set_other r3 setupName _ (Ne.symm setupName_ne_segName)]
      exact hseg3

/-! ## Concrete runs used by witnesses and counterexamples -/

/-- An oracle under which every external command succeeds: checkout lands on a
tree holding an empty `analytics` package and a `setup.py`, the upstream tag
`v1.4.0` is ahead of the local `v1.3.0`. -/
def envAllOk : Env :=
  { remoteFound := true, fetchMasterOk := true, fetchTagsOk := true,
    branchExists := true, checkoutOk := true, checkoutHead := 2,
    checkoutTree := [(anaName, .dir []), (setupName, .file [])],
    describeMasterOut := "v1.4.0\n".toList, describeTagsOut := "v1.3.0\n".toList,
    skipReleaseMerge := false, mergeOk := true, mergeCommitOk := true,
    mergeTree := [(anaName, .dir []), (setupName, .file [])], mergeCommitHead := 3,
    rmtreeOk := true, mkdirOk := true, rewriteOk := true, setupOk := true,
    addOk := true, commitOk := true, finalCommitHead := 9 }

def st0W : RepoState :=
  { head := 1, branch := "master".toList, root := [(setupName, .file [])],
    fetchedMaster := false, fetchedTags := false }

def hiddenPyName : List Char := ".hidden.py".toList

def hiddenPyTree : Listing := [(hiddenPyName, .file importAnalytics)]

def visPyName : List Char := "client.py".toList

def visPyContent : List Char := "from analytics.utils import clamp\n".toList

def visPyTree : Listing := [(visPyName, .file visPyContent)]

def envC2 : Env := { envAllOk with skipReleaseMerge := true, commitOk := false }

def envC3 : Env := { envAllOk with mergeOk := false }

def envC4 : Env := { envAllOk with branchExists := false }

def envC5 : Env := { envAllOk with describeTagsOut := "v1.4.0\n".toList }

def rootFresh : Listing := [(anaName, .dir []), (setupName, .file [])]

def rootStale : Listing :=
  [(anaName, .dir []), (setupName, .file setupNamePat),
   (segName, .dir [("stale.txt".toList, .file [])])]

def resRebuilt : Listing := [(anaName, .dir []), (setupName, .file []), (segName, .dir [])]

def resStale : Listing :=
  [(anaName, .dir []), (setupName, .file setupNameRepl), (segName, .dir [])]

def stOnBranch : RepoState := { st0W with branch := fixedBranch }

/-- The state the branch guard hands on: branch, head and tree from the
checkout it (needlessly) performs. -/
def stAfterGuard : RepoState :=
  { stOnBranch with
    branch := fixedBranch,
    head := envAllOk.checkoutHead,
    root := envAllOk.checkoutTree }

/-! ## The claims -/

/-- C1, counterexample: the claim promises a rewritten target file for *every*
`.py` file of the source tree, but `glob`'s `*` pattern skips dot-prefixed
names: a source tree holding `.hidden.py` (whose content even matches the
rewrite pattern) produces no target entry at all. -/
theorem hidden_py_file_not_rewritten_cex :
    lookupIn (.dir hiddenPyTree) [hiddenPyName] = some (.file importAnalytics) ∧
    (".py".toList).isSuffixOf hiddenPyName = true ∧
    lookupIn (.dir (create_segmentio_branded_package hiddenPyTree)) [hiddenPyName] = none :=
  ⟨rfl, by decide, rfl⟩

/-- C1, amended: for every file of the source tree none of whose path
components begins with a dot, the rewriter writes to the corresponding target
path the file's contents with every occurrence of `import analytics` replaced
by `import segmentio` and every occurrence of `from analytics.` replaced by
`from segmentio.` (the one-pass `specNamespaceRewrite`, so content not inside
either pattern is byte-identical) when the name ends in `.py`, and the
contents byte-for-byte otherwise. -/
theorem rewriter_rewrites_visible_files (path : List (List Char)) (ch : Listing)
    (n : List Char) (c : List Char)
    (hpath : ∀ m ∈ path, isHidden m = false) (hn : isHidden n = false)
    (hsrc : lookupIn (.dir ch) (path ++ [n]) = some (.file c)) :
    lookupIn (.dir (create_segmentio_branded_package ch)) (path ++ [n]) =
      some (.file (if (".py".toList).isSuffixOf n then specNamespaceRewrite c else c)) := by
  rw [create_segmentio_branded_package, ← rewritePyContent_eq_spec]
  exact lookupIn_rewriteChildren path ch n c hpath hn hsrc

/-- Witness for C1's amended theorem at a concrete one-file tree. -/
theorem rewriter_rewrites_visible_files_witness :
    (∀ m ∈ ([] : List (List Char)), isHidden m = false) ∧ isHidden visPyName = false ∧
    lookupIn (.dir visPyTree) ([] ++ [visPyName]) = some (.file visPyContent) ∧
    lookupIn (.dir (create_segmentio_branded_package visPyTree)) ([] ++ [visPyName]) =
      some (.file (if (".py".toList).isSuffixOf visPyName then
        specNamespaceRewrite visPyContent else visPyContent)) :=
  ⟨by simp, by decide, by rfl,
    rewriter_rewrites_visible_files [] visPyTree visPyName visPyContent
      (by simp) (by decide) (by rfl)⟩

/-- C2: when the run reaches the rebuild-through-commit phase (every earlier
external command succeeded) and the process then fails with any error, the
orchestrator has reset the head and the working tree back to the recorded
starting commit, a `git reset --hard <starting>` is among the invoked
commands, and the surfaced failure is the caught one re-raised. -/
theorem rollback_on_rebuild_failure (env : Env) (st0 : RepoState) (e : RunError)
    (h1 : env.remoteFound = true) (h2 : env.fetchMasterOk = true)
    (h3 : env.fetchTagsOk = true) (h4 : env.branchExists = true)
    (h5 : env.checkoutOk = true) (h6 : env.mergeOk = true)
    (h7 : env.mergeCommitOk = true)
    (he : (runMain env st0).1 = .error e) :
    (runMain env st0).2.1.head = st0.head ∧ (runMain env st0).2.1.root = st0.root ∧
      Act.reset st0.head ∈ (runMain env st0).2.2 := by
  by_cases hskip : env.skipReleaseMerge = true
  · rw [runMain_skip_eq env st0 h1 h2 h3 h4 h5 hskip] at he ⊢
    rcases hrb : rebuildPhase env ⟨env.checkoutHead, fixedBranch, env.checkoutTree, true, true⟩
      with ⟨res, acts⟩
    cases res with
    | ok st' =>
      rw [runRebuild_ok _ _ _ _ _ _ _ hrb] at he
      exact Outcome.noConfusion he
    | error e' =>
      rw [runRebuild_err _ _ _ _ _ _ _ hrb]
      refine ⟨rfl, rfl, ?_⟩
      simp
  · have hskip' : env.skipReleaseMerge = false := by
      revert hskip; cases env.skipReleaseMerge <;> simp
    by_cases htag : rstrip env.describeTagsOut = rstrip env.describeMasterOut
    · have hne := fixedBranch_ne_newline st0.branch
      simp [runMain, checkout_segmentio_branded_branch, get_most_recent_tag,
        h1, h2, h3, h4, h5, hskip', htag, hne] at he
    · rw [runMain_merge_eq env st0 h1 h2 h3 h4 h5 h6 h7 hskip' htag] at he ⊢
      rcases hrb : rebuildPhase env ⟨env.mergeCommitHead, fixedBranch, env.mergeTree, true, true⟩
        with ⟨res, acts⟩
      cases res with
      | ok st' =>
        rw [runRebuild_ok _ _ _ _ _ _ _ hrb] at he
        exact Outcome.noConfusion he
      | error e' =>
        rw [runRebuild_err _ _ _ _ _ _ _ hrb]
        refine ⟨rfl, rfl, ?_⟩
        simp

/-- Witness for C2 at a concrete run whose final `git commit` fails. -/
theorem rollback_on_rebuild_failure_witness :
    envC2.remoteFound = true ∧ envC2.fetchMasterOk = true ∧ envC2.fetchTagsOk = true ∧
    envC2.branchExists = true ∧ envC2.checkoutOk = true ∧ envC2.mergeOk = true ∧
    envC2.mergeCommitOk = true ∧
    (runMain envC2 st0W).1 = .error (.cmdFailed commitCmd) ∧
    ((runMain envC2 st0W).2.1.head = st0W.head ∧ (runMain envC2 st0W).2.1.root = st0W.root ∧
      Act.reset st0W.head ∈ (runMain envC2 st0W).2.2) :=
  ⟨rfl, rfl, rfl, rfl, rfl, rfl, rfl, rfl,
    rollback_on_rebuild_failure envC2 st0W (.cmdFailed commitCmd)
      rfl rfl rfl rfl rfl rfl rfl (by rfl)⟩

/-- C3, counterexample: with the merge command failing, the process surfaces
the merge failure but no `git reset` is ever invoked — the merge step sits
before the try block, so the rollback handler never sees its failure,
contradicting the claim that the rollback is performed before the failure
surfaces. -/
theorem merge_failure_skips_rollback_cex :
    (runMain envC3 st0W).1 = .error (.cmdFailed mergeCmd) ∧
    ((runMain envC3 st0W).2.2.all fun a => !a.isReset) = true :=
  ⟨rfl, rfl⟩

/-- C3, amended: a merge failure is not caught anywhere: it propagates
directly out of the run and no reset to the recorded starting commit is
performed (the rollback handler only covers the later rebuild-through-commit
phase). -/
theorem merge_failure_propagates_without_rollback (env : Env) (st0 : RepoState)
    (h1 : env.remoteFound = true) (h2 : env.fetchMasterOk = true)
    (h3 : env.fetchTagsOk = true) (h4 : env.branchExists = true)
    (h5 : env.checkoutOk = true) (hskip : env.skipReleaseMerge = false)
    (htag : ¬ rstrip env.describeTagsOut = rstrip env.describeMasterOut)
    (hm : env.mergeOk = false) :
    (runMain env st0).1 = .error (.cmdFailed mergeCmd) ∧
      ((runMain env st0).2.2.all fun a => !a.isReset) = true := by
  have hne := fixedBranch_ne_newline st0.branch
  simp [runMain, checkout_segmentio_branded_branch, get_most_recent_tag,
    merge_tagged_version, h1, h2, h3, h4, h5, hskip, htag, hm, hne, Act.isReset]

/-- Witness for C3's amended theorem at the concrete merge-failure run. -/
theorem merge_failure_propagates_without_rollback_witness :
    envC3.remoteFound = true ∧ envC3.fetchMasterOk = true ∧ envC3.fetchTagsOk = true ∧
    envC3.branchExists = true ∧ envC3.checkoutOk = true ∧
    envC3.skipReleaseMerge = false ∧
    (¬ rstrip envC3.describeTagsOut = rstrip envC3.describeMasterOut) ∧
    envC3.mergeOk = false ∧
    ((runMain envC3 st0W).1 = .error (.cmdFailed mergeCmd) ∧
      ((runMain envC3 st0W).2.2.all fun a => !a.isReset) = true) :=
  ⟨rfl, rfl, rfl, rfl, rfl, rfl, by decide, rfl,
    merge_failure_propagates_without_rollback envC3 st0W
      rfl rfl rfl rfl rfl rfl (by decide) rfl⟩

/-- C4, counterexample: when the release branch is missing, the branch guard
does raise its `StandardError`, but only after `git fetch` of the upstream
branch and of the tags have already run — the claim's "before any fetch
mutation has occurred" is false of the code, which fetches first. -/
theorem branch_guard_after_fetch_cex :
    (runMain envC4 st0W).1 = .error .missingBranch ∧
    (runMain envC4 st0W).2.1.fetchedMaster = true ∧
    (runMain envC4 st0W).2.1.fetchedTags = true ∧
    st0W.fetchedMaster = false ∧ st0W.fetchedTags = false :=
  ⟨rfl, rfl, rfl, rfl, rfl⟩

/-- C4, amended: when the release branch does not exist the branch guard
raises its `StandardError`-kind condition before any checkout, merge, commit
or reset runs; head, current branch and working tree are unchanged at the
point of failure (the upstream fetch, which precedes the guard, has already
happened). -/
theorem branch_guard_fails_with_repo_unchanged (env : Env) (st0 : RepoState)
    (h1 : env.remoteFound = true) (h2 : env.fetchMasterOk = true)
    (h3 : env.fetchTagsOk = true) (hb : env.branchExists = false) :
    (runMain env st0).1 = .error .missingBranch ∧
    (runMain env st0).2.1.head = st0.head ∧
    (runMain env st0).2.1.branch = st0.branch ∧
    (runMain env st0).2.1.root = st0.root ∧
    ((runMain env st0).2.2.all fun a =>
      !(a.isMergeCmd || a.isCommitCmd || a.isCheckout || a.isReset)) = true := by
  have hne := fixedBranch_ne_newline st0.branch
  simp [runMain, checkout_segmentio_branded_branch, h1, h2, h3, hb, hne,
    Act.isMergeCmd, Act.isCommitCmd, Act.isCheckout, Act.isReset]

/-- Witness for C4's amended theorem at the concrete missing-branch run. -/
theorem branch_guard_fails_with_repo_unchanged_witness :
    envC4.remoteFound = true ∧ envC4.fetchMasterOk = true ∧ envC4.fetchTagsOk = true ∧
    envC4.branchExists = false ∧
    ((runMain envC4 st0W).1 = .error .missingBranch ∧
      (runMain envC4 st0W).2.1.head = st0W.head ∧
      (runMain envC4 st0W).2.1.branch = st0W.branch ∧
      (runMain envC4 st0W).2.1.root = st0W.root ∧
      ((runMain envC4 st0W).2.2.all fun a =>
        !(a.isMergeCmd || a.isCommitCmd || a.isCheckout || a.isReset)) = true) :=
  ⟨rfl, rfl, rfl, rfl,
    branch_guard_fails_with_repo_unchanged envC4 st0W rfl rfl rfl rfl⟩

/-- C5: when the merge-skip flag is off and the rstripped current tag equals
the rstripped most recent upstream tag, the process exits with code 0 and the
run invokes no `git merge` and no `git commit`. -/
theorem up_to_date_exits_zero_without_merge (env : Env) (st0 : RepoState)
    (h1 : env.remoteFound = true) (h2 : env.fetchMasterOk = true)
    (h3 : env.fetchTagsOk = true) (h4 : env.branchExists = true)
    (h5 : env.checkoutOk = true) (hskip : env.skipReleaseMerge = false)
    (htag : rstrip env.describeTagsOut = rstrip env.describeMasterOut) :
    (runMain env st0).1 = .exited 0 ∧
      ((runMain env st0).2.2.all fun a => !(a.isMergeCmd || a.isCommitCmd)) = true := by
  have hne := fixedBranch_ne_newline st0.branch
  simp [runMain, checkout_segmentio_branded_branch, get_most_recent_tag,
    h1, h2, h3, h4, h5, hskip, htag, hne, Act.isMergeCmd, Act.isCommitCmd]

/-- Witness for C5 at the concrete up-to-date run. -/
theorem up_to_date_exits_zero_without_merge_witness :
    envC5.remoteFound = true ∧ envC5.fetchMasterOk = true ∧ envC5.fetchTagsOk = true ∧
    envC5.branchExists = true ∧ envC5.checkoutOk = true ∧
    envC5.skipReleaseMerge = false ∧
    rstrip envC5.describeTagsOut = rstrip envC5.describeMasterOut ∧
    ((runMain envC5 st0W).1 = .exited 0 ∧
      ((runMain envC5 st0W).2.2.all fun a => !(a.isMergeCmd || a.isCommitCmd)) = true) :=
  ⟨rfl, rfl, rfl, rfl, rfl, rfl, rfl,
    up_to_date_exits_zero_without_merge envC5 st0W rfl rfl rfl rfl rfl rfl rfl⟩

/-- C6: a run that completes the rebuild leaves the `segmentio` entry holding
exactly the tree generated from the current `analytics` children — whatever
the target directory held before (stale files included) is gone, because the
old tree is removed and recreated empty before the rewrite. -/
theorem rebuild_regenerates_target_tree (env : Env) (root root' : Listing)
    (h : rebuildTree env root = .ok root') :
    findEntry root' segName =
      some (.dir (create_segmentio_branded_package (anaChildren root))) :=
  rebuildTree_seg env root root' h

/-- Witness for C6 at a concrete tree with a stale `segmentio` directory. -/
theorem rebuild_regenerates_target_tree_witness :
    rebuildTree envAllOk rootStale = .ok resStale ∧
    findEntry resStale segName =
      some (.dir (create_segmentio_branded_package (anaChildren rootStale))) :=
  ⟨by rfl, rebuild_regenerates_target_tree envAllOk rootStale resStale (by rfl)⟩

/-- C7: the metadata rewriter is exactly the three fixed literal replacements
(distribution name, test-suite entry point, included sub-packages), and a
replacement whose literal does not occur in the content is a silent no-op. -/
theorem setup_rewrite_three_fixed_replacements :
    (∀ c, refactor_setup_with_segmentio_branding c =
      strReplace (strReplace (strReplace c setupNamePat setupNameRepl)
        setupSuitePat setupSuiteRepl) setupPkgsPat setupPkgsRepl) ∧
    (∀ s, containsPat setupNamePat s = false → strReplace s setupNamePat setupNameRepl = s) ∧
    (∀ s, containsPat setupSuitePat s = false →
      strReplace s setupSuitePat setupSuiteRepl = s) ∧
    (∀ s, containsPat setupPkgsPat s = false → strReplace s setupPkgsPat setupPkgsRepl = s) :=
  ⟨fun _ => rfl,
   fun _ h => strReplace_of_not_contains _ h,
   fun _ h => strReplace_of_not_contains _ h,
   fun _ h => strReplace_of_not_contains _ h⟩

def plainSetup : List Char := "from setuptools import setup\nsetup()\n".toList

/-- Witness for C7 on a descriptor containing none of the three literals. -/
theorem setup_rewrite_three_fixed_replacements_witness :
    containsPat setupNamePat plainSetup = false ∧
    strReplace plainSetup setupNamePat setupNameRepl = plainSetup ∧
    containsPat setupSuitePat plainSetup = false ∧
    strReplace plainSetup setupSuitePat setupSuiteRepl = plainSetup ∧
    containsPat setupPkgsPat plainSetup = false ∧
    strReplace plainSetup setupPkgsPat setupPkgsRepl = plainSetup :=
  ⟨by decide, setup_rewrite_three_fixed_replacements.2.1 plainSetup (by decide),
   by decide, setup_rewrite_three_fixed_replacements.2.2.1 plainSetup (by decide),
   by decide, setup_rewrite_three_fixed_replacements.2.2.2 plainSetup (by decide)⟩

/-- C8: the generated `segmentio` tree is a function of the `analytics` source
tree alone — two successful rebuilds over trees with the same `analytics`
entry (each into its own freshly cleared target) produce the same target
tree, whatever else the surrounding trees hold. -/
theorem rewrite_deterministic_in_source_tree (env1 env2 : Env)
    (r1 r2 r1' r2' : Listing)
    (hok1 : rebuildTree env1 r1 = .ok r1') (hok2 : rebuildTree env2 r2 = .ok r2')
    (hsame : findEntry r1 anaName = findEntry r2 anaName) :
    findEntry r1' segName = findEntry r2' segName := by
  rw [rebuildTree_seg env1 r1 r1' hok1, rebuildTree_seg env2 r2 r2' hok2]
  simp only [anaChildren, hsame]

/-- Witness for C8: a fresh tree and a tree with a stale target agree on
`analytics`, and their rebuilt targets agree. -/
theorem rewrite_deterministic_in_source_tree_witness :
    rebuildTree envAllOk rootFresh = .ok resRebuilt ∧
    rebuildTree envAllOk rootStale = .ok resStale ∧
    findEntry rootFresh anaName = findEntry rootStale anaName ∧
    findEntry resRebuilt segName = findEntry resStale segName :=
  ⟨by rfl, by rfl, by rfl,
    rewrite_deterministic_in_source_tree envAllOk envAllOk rootFresh rootStale
      resRebuilt resStale (by rfl) (by rfl) (by rfl)⟩

/-- C9: the claim says that a run already on `segmentio-release` performs no
branch-existence check and no checkout; the code, however, compares the fixed
name against the raw `check_output` value, whose trailing newline makes the
equality always fail (every other `check_output` in the script is rstripped —
this one is not), so the guard runs `git rev-parse --verify` and
`git checkout` even when already on the branch.  Evaluation of the model at
that failing input, showing both commands invoked. -/
theorem guard_rechecks_even_when_on_branch :
    stOnBranch.branch = fixedBranch ∧
    checkout_segmentio_branded_branch envAllOk stOnBranch =
      (.ok stAfterGuard, [.verifyBranch, .checkout]) :=
  ⟨rfl, rfl⟩

/-- C10: an entry whose name begins with a dot is invisible to the `glob`
listing: the rewriter neither rewrites nor copies it, and the target tree has
no entry of that name. -/
theorem hidden_entries_skipped (ch : Listing) (n : List Char)
    (h : isHidden n = true) :
    findEntry (create_segmentio_branded_package ch) n = none :=
  findEntry_rewriteChildren_hidden ch n h

/-- Witness for C10 at the concrete hidden-file tree. -/
theorem hidden_entries_skipped_witness :
    isHidden hiddenPyName = true ∧
    findEntry (create_segmentio_branded_package hiddenPyTree) hiddenPyName = none :=
  ⟨by decide, hidden_entries_skipped hiddenPyTree hiddenPyName (by decide)⟩

end FixAnalyticsNamespace
